import Mathlib

/-!
Verification of the `getoptx` zsh builtin module (Src/Modules/getoptx.c).

The development shallowly embeds the module in Lean:

* strings are `List Char` (the C code never stores interior NUL bytes);
* the long-option table building (`add_longopt`, `add_longopts`) is embedded
  directly from the C source;
* the classification loop of `bin_getoptx` is embedded directly from the C
  source, driving a step model of the external option parser;
* the external collaborators that the module delegates to — the C library
  parser `getopt_long(3)` and the shell glue (`quotestring`, `isident`,
  parameter assignment) — are modelled from the specification of the
  conventions the module mirrors, as the spec directs.
-/

namespace Getoptx

/-- Single-quote character (ASCII 39). -/
def sq : Char := Char.ofNat 39

/-- Backslash character (ASCII 92). -/
def bsl : Char := Char.ofNat 92

/-- C locale ispunct(3): a printable character that is neither alphanumeric
nor a space, i.e. ASCII 33–47, 58–64, 91–96 or 123–126. -/
def ispunctC (c : Char) : Bool :=
  decide (33 ≤ c.toNat ∧ c.toNat ≤ 47) || decide (58 ≤ c.toNat ∧ c.toNat ≤ 64) ||
  decide (91 ≤ c.toNat ∧ c.toNat ≤ 96) || decide (123 ≤ c.toNat ∧ c.toNat ≤ 126)

/-- C locale isdigit(3). -/
def isdigitC (c : Char) : Bool :=
  decide (48 ≤ c.toNat ∧ c.toNat ≤ 57)

/-- Shell identifier character: alphanumeric or underscore (models zsh iident). -/
def identChar (c : Char) : Bool :=
  decide (48 ≤ c.toNat ∧ c.toNat ≤ 57) || decide (65 ≤ c.toNat ∧ c.toNat ≤ 90) ||
  decide (97 ≤ c.toNat ∧ c.toNat ≤ 122) || decide (c.toNat = 95)

/-- Modelled from the spec: zsh `isident`, used by the parameter binding glue;
a name is a valid identifier when it is non-empty and made of identifier
characters. -/
def isidentB (s : List Char) : Bool :=
  !s.isEmpty && s.all identChar

/-- Delimiter set of the strtok(3) call in `add_longopts`:
space, CR, LF, TAB, pipe, comma. -/
def isDelim (c : Char) : Bool :=
  c == ' ' || decide (c.toNat = 13) || decide (c.toNat = 10) ||
  decide (c.toNat = 9) || c == '|' || c == ','

/-- Embeds `strip_punct`: copy the string, dropping every punctuation
character. -/
def strip_punct (s : List Char) : List Char :=
  s.filter (fun c => !(ispunctC c))

/-- Embeds strtok(3) tokenization over the delimiter set: split the spec on
delimiters and keep the non-empty fields. -/
def tokenizeSpec (s : List Char) : List (List Char) :=
  (s.foldr
    (fun c acc =>
      if isDelim c then [] :: acc
      else
        match acc with
        | t :: rest => (c :: t) :: rest
        | [] => [[c]])
    [[]]).filter (fun t => !t.isEmpty)

/-- One entry of the long-option table (struct option): the stored name, the
argument requirement (0 = no_argument, 1 = required_argument,
2 = optional_argument) and the per-entry `val` tag (`i + 1` in the C code;
all entries share one flag cell, which the embedding leaves implicit). -/
structure LongOpt where
  name : List Char
  has_arg : Nat
  val : Nat
deriving DecidableEq, Repr, Inhabited

/-- Embeds `add_longopt`: reject an empty name, a leading dash or a trailing
colon; otherwise update the first entry with the same name in place, or
append a fresh entry (with `val = i + 1`) before the sentinel. `none` models
the non-zero error return. -/
def add_longopt (t : List LongOpt) (nm : List Char) (ha : Nat) : Option (List LongOpt) :=
  if nm.isEmpty || nm.head? == some '-' || nm.getLast? == some ':' then none
  else
    match t.findIdx? (fun e => e.name == nm) with
    | some k => some (t.set k { t.getD k default with has_arg := ha })
    | none => some (t ++ [{ name := nm, has_arg := ha, val := t.length + 1 }])

/-- Embeds the per-token stripping of `add_longopts`: drop a leading `--`
(when the token has length at least 3), then classify and drop a trailing
`::` (optional argument) or `:` (required argument) suffix. -/
def processTok (tok : List Char) : List Char × Nat :=
  let t1 :=
    if decide (3 ≤ tok.length) && tok.head? == some '-' && tok.tail.head? == some '-'
    then tok.drop 2 else tok
  if decide (3 ≤ t1.length) && t1.getLast? == some ':' && t1.dropLast.getLast? == some ':'
  then (t1.dropLast.dropLast, 2)
  else if decide (2 ≤ t1.length) && t1.getLast? == some ':'
  then (t1.dropLast, 1)
  else (t1, 0)

/-- Embeds the registration block of `add_longopts` (lines 255–271) for one
already-stripped name: register the name; on success, when punctuation
normalisation is requested and stripping punctuation shortens the name, also
try to register the stripped alias, counting its failure like any other.
Returns the failure count together with the updated table. -/
def regNamed (t : List LongOpt) (nm : List Char) (ha : Nat) (np : Bool) :
    Nat × List LongOpt :=
  if nm.isEmpty then (0, t)
  else
    match add_longopt t nm ha with
    | none => (1, t)
    | some t1 =>
      if np then
        let al := strip_punct nm
        if al.length < nm.length then
          match add_longopt t1 al ha with
          | none => (1, t1)
          | some t2 => (0, t2)
        else (0, t1)
      else (0, t1)

/-- Registration of one raw spec token: strip it, then register. -/
def regToken (t : List LongOpt) (tok : List Char) (np : Bool) : Nat × List LongOpt :=
  regNamed t (processTok tok).1 (processTok tok).2 np

/-- Embeds `add_longopts`: tokenize the spec string and register every token,
accumulating the failure count. -/
def add_longopts (t : List LongOpt) (spec : List Char) (np : Bool) : Nat × List LongOpt :=
  (tokenizeSpec spec).foldl
    (fun acc tok =>
      let r := regToken acc.2 tok np
      (acc.1 + r.1, r.2))
    (0, t)

/-- Embeds the `-l` processing loop of `bin_getoptx` (lines 434–440): process
each collected long-option spec in order, aborting at the first spec whose
`add_longopts` reports a non-zero failure count. -/
def addAllSpecs (t : List LongOpt) : List (List Char) → Bool → Except (List Char) (List LongOpt)
  | [], _ => .ok t
  | sp :: rest, np =>
    let r := add_longopts t sp np
    if r.1 ≠ 0 then .error sp else addAllSpecs r.2 rest np

/-! ## Model of the external option parser

Modelled from the spec: the module "intentionally mirrors one external
library's exact matching rules (ambiguous-prefix long-option resolution,
optional/required argument forms)". The model below is the conventional
getopt_long(3) behaviour the spec describes: argument permutation (with the
`+`/`-` optstring prefixes selecting require-order / return-in-order), the
leading-`:` quiet convention, attached and detached option arguments, and
exact-then-unambiguous-prefix long-option matching.

A key simplification, justified for the observables the builtin reads: the
library permutes `argv` in place, but every exchange only rewrites positions
strictly below the `optind` value of the previous return, so the builtin's
forward scans from the previous `optind` always read the original vector.
The model therefore keeps the original vector fixed, tracks the scan index,
collects skipped operands in order, and reports the final operand list
(which equals the permuted tail `argv[optind..]` after the final return). -/

/-- Argument ordering selected by the first character of the optstring. -/
inductive ScanOrder where
  | permute
  | require
  | inorder
deriving DecidableEq, Repr

/-- Parameters of one parsing session: the (fixed) argument vector, the
effective optstring (after stripping an ordering prefix), the ordering, the
leading-colon quiet convention, whether the library prints diagnostics, and
the long-option table. -/
structure GParams where
  argv : List (List Char)
  eff : List Char
  ordering : ScanOrder
  colonMode : Bool
  printErrors : Bool
  longopts : List LongOpt
deriving Repr

/-- Mutable parser state: scan index into the original vector (the library's
`optind` in original coordinates), the remaining characters of the current
short-option cluster (the library's `nextchar`), and the operands skipped so
far (in order). -/
structure GState where
  i : Nat
  cluster : List Char
  pending : List (List Char)
deriving DecidableEq, Repr

/-- One parser return: end of options (with the final operand list), the
`:` missing-argument code, the `?` error code, a matched long option
(returning 0 with `longind` set), or a short option character. -/
inductive GRet where
  | eof (ops : List (List Char))
  | colon
  | quest
  | long (k : Nat)
  | short (c : Char)
deriving DecidableEq, Repr

/-- Result of one parser step: return code, `optarg`, new state, and whether
the library printed a diagnostic. -/
structure GOut where
  ret : GRet
  optarg : Option (List Char)
  st : GState
  diag : Bool
deriving Repr

/-- Is the return an end-of-options return? -/
def GRet.isEof : GRet → Bool
  | .eof _ => true
  | _ => false

/-- An argv element the parser treats as an option: first character `-` and
at least one further character. -/
def optionLike : List Char → Bool
  | c :: _ :: _ => c == '-'
  | _ => false

/-- Ordering selected by the optstring head (`-` return-in-order,
`+` require-order, otherwise permute). -/
def orderingOf (so : List Char) : ScanOrder :=
  match so.head? with
  | some c => if c == '-' then .inorder else if c == '+' then .require else .permute
  | none => .permute

/-- The optstring after stripping an ordering prefix character. -/
def effOf (so : List Char) : List Char :=
  match so with
  | c :: t => if c == '-' || c == '+' then t else so
  | [] => []

/-- Look up a short option character in the effective optstring: `none` when
absent (or for the special characters `:` and `;`), otherwise the argument
arity given by the following colons (0, 1 or 2). -/
def findShort (eff : List Char) (c : Char) : Option Nat :=
  if c == ':' || c == ';' then none
  else
    match eff.dropWhile (fun x => x != c) with
    | [] => none
    | _ :: rest =>
      some (if rest.head? == some ':' then (if rest.tail.head? == some ':' then 2 else 1) else 0)

/-- Split a long-option body at the first `=`: the name part and the
attached value, when present. -/
def splitEq (body : List Char) : List Char × Option (List Char) :=
  let nm := body.takeWhile (fun x => x != '=')
  match body.dropWhile (fun x => x != '=') with
  | [] => (nm, none)
  | _ :: v => (nm, some v)

/-- Long-option resolution: an exact name match wins; otherwise a unique
prefix match; zero or several prefix matches (the table's `val` tags are
pairwise distinct) resolve to an error. Returns the matched index. -/
def longFind (tbl : List LongOpt) (nm : List Char) : Option Nat :=
  match (tbl.enum.filter (fun p => p.2.name == nm)).head? with
  | some (k, _) => some k
  | none =>
    match tbl.enum.filter (fun p => nm.isPrefixOf p.2.name) with
    | [(k, _)] => some k
    | _ => none

/-- Process one short-option character `c` (the rest of the cluster being
`rest`) of the element at index `j`. -/
def shortStep (P : GParams) (j : Nat) (pending : List (List Char)) (c : Char)
    (rest : List Char) : GOut :=
  let i0 := if rest.isEmpty then j + 1 else j
  match findShort P.eff c with
  | none => ⟨.quest, none, ⟨i0, rest, pending⟩, P.printErrors⟩
  | some 1 =>
    if !rest.isEmpty then ⟨.short c, some rest, ⟨j + 1, [], pending⟩, false⟩
    else if decide (j + 1 < P.argv.length) then
      ⟨.short c, some (P.argv.getD (j + 1) []), ⟨j + 2, [], pending⟩, false⟩
    else ⟨if P.colonMode then .colon else .quest, none, ⟨j + 1, [], pending⟩, P.printErrors⟩
  | some 2 =>
    if !rest.isEmpty then ⟨.short c, some rest, ⟨j + 1, [], pending⟩, false⟩
    else ⟨.short c, none, ⟨j + 1, [], pending⟩, false⟩
  | some _ => ⟨.short c, none, ⟨i0, rest, pending⟩, false⟩

/-- Process the long-option element (body after `--`) at index `j`. -/
def longStep (P : GParams) (j : Nat) (pending : List (List Char))
    (body : List Char) : GOut :=
  let p := splitEq body
  match longFind P.longopts p.1 with
  | none => ⟨.quest, none, ⟨j + 1, [], pending⟩, P.printErrors⟩
  | some k =>
    let ha := (P.longopts.getD k default).has_arg
    match p.2 with
    | some v =>
      if ha ≠ 0 then ⟨.long k, some v, ⟨j + 1, [], pending⟩, false⟩
      else ⟨.quest, none, ⟨j + 1, [], pending⟩, P.printErrors⟩
    | none =>
      if ha = 1 then
        if decide (j + 1 < P.argv.length) then
          ⟨.long k, some (P.argv.getD (j + 1) []), ⟨j + 2, [], pending⟩, false⟩
        else ⟨if P.colonMode then .colon else .quest, none, ⟨j + 1, [], pending⟩, P.printErrors⟩
      else ⟨.long k, none, ⟨j + 1, [], pending⟩, false⟩

/-- Start processing the option-like element `e` at index `j`: the `--`
terminator ends the scan (everything after it is an operand), a `--name`
element is a long option, anything else starts a short-option cluster. -/
def startElem (P : GParams) (j : Nat) (pending : List (List Char))
    (e : List Char) : GOut :=
  match e with
  | _ :: '-' :: body =>
    if body.isEmpty then
      let ops := pending ++ P.argv.drop (j + 1)
      ⟨.eof ops, none, ⟨P.argv.length - ops.length, [], ops⟩, false⟩
    else longStep P j pending body
  | _ :: c :: rest => shortStep P j pending c rest
  | _ => ⟨.quest, none, ⟨j + 1, [], pending⟩, P.printErrors⟩

/-- One step of the parser: continue the current cluster, or advance to the
next element according to the ordering, skipping (and collecting) operands
in permute mode. -/
def gstep (P : GParams) (s : GState) : GOut :=
  match s.cluster with
  | c :: rest => shortStep P s.i s.pending c rest
  | [] =>
    match P.ordering with
    | .permute =>
      let j := s.i + (P.argv.drop s.i).findIdx optionLike
      let pnd := s.pending ++ (P.argv.drop s.i).takeWhile (fun e => !optionLike e)
      if decide (j < P.argv.length) then startElem P j pnd (P.argv.getD j [])
      else ⟨.eof pnd, none, ⟨P.argv.length - pnd.length, [], pnd⟩, false⟩
    | .require =>
      if decide (s.i < P.argv.length) then
        let e := P.argv.getD s.i []
        if optionLike e then startElem P s.i s.pending e
        else
          let ops := P.argv.drop s.i
          ⟨.eof ops, none, ⟨s.i, [], ops⟩, false⟩
      else ⟨.eof [], none, ⟨s.i, [], []⟩, false⟩
    | .inorder =>
      if decide (s.i < P.argv.length) then
        let e := P.argv.getD s.i []
        if optionLike e then startElem P s.i [] e
        else ⟨.short (Char.ofNat 1), some e, ⟨s.i + 1, [], []⟩, false⟩
      else ⟨.eof [], none, ⟨s.i, [], []⟩, false⟩

/-! ## Embedding of `bin_getoptx` -/

/-- Configuration collected from the builtin's own flags. -/
structure Cfg where
  arrname : Option (List Char) := none
  scaname : Option (List Char) := none
  nameOpt : Option (List Char) := none
  longspecs : List (List Char) := []
  concat : Bool := false
  err_elide : Bool := false
  err_abort : Bool := false
  norm_punct : Bool := false
deriving DecidableEq, Repr, Inhabited

/-- Host environment of one invocation: positional parameters, the builtin
name `nam`, and the ambient `scriptname` / `argzero` used for the default
diagnostic name. -/
structure Env where
  pparams : List (List Char) := []
  nam : List Char := []
  scriptname : Option (List Char) := none
  argzero : Option (List Char) := none
deriving DecidableEq, Repr, Inhabited

/-- Process-global state the builtin touches: the parser's `opterr` flag and
the program name observed by diagnostics. -/
structure Globals where
  opterr : Nat := 1
  progname : Option (List Char) := none
deriving DecidableEq, Repr, Inhabited

/-- Usage errors of the builtin's own flag parsing. -/
inductive BErr where
  | optargExpected (c : Char)
  | optionInvalid (s : List Char)
  | fuel
deriving DecidableEq, Repr

/-- Embeds the inner character loop of the builtin's flag parser (lines
350–430): process the characters of one `-...` element, possibly consuming
the following element as a flag argument. Returns the updated configuration
and `opterr`, and whether the next element was consumed. -/
def parseChars (cfg : Cfg) (o : Nat) (nxt : Option (List Char)) :
    List Char → Except (BErr × Cfg × Nat) (Cfg × Nat × Bool)
  | [] => .ok (cfg, o, false)
  | c :: cs =>
    if c == 'A' then
      match cs with
      | [] =>
        match nxt with
        | some a => .ok ({ cfg with arrname := some a }, o, true)
        | none => .error (.optargExpected c, cfg, o)
      | _ => .ok ({ cfg with arrname := some cs }, o, false)
    else if c == 'c' then parseChars { cfg with concat := true } o nxt cs
    else if c == 'e' then parseChars { cfg with err_elide := true } o nxt cs
    else if c == 'E' then parseChars { cfg with err_abort := true } o nxt cs
    else if c == 'l' then
      match cs with
      | [] =>
        match nxt with
        | some a => .ok ({ cfg with longspecs := cfg.longspecs ++ [a] }, o, true)
        | none => .error (.optargExpected c, cfg, o)
      | _ => .ok ({ cfg with longspecs := cfg.longspecs ++ [cs] }, o, false)
    else if c == 'n' then
      match cs with
      | [] =>
        match nxt with
        | some a => .ok ({ cfg with nameOpt := some a }, o, true)
        | none => .error (.optargExpected c, cfg, o)
      | _ => .ok ({ cfg with nameOpt := some cs }, o, false)
    else if c == 'p' then parseChars { cfg with norm_punct := true } o nxt cs
    else if c == 'q' then parseChars cfg 0 nxt cs
    else if c == 's' then
      match cs with
      | [] =>
        match nxt with
        | some a => .ok ({ cfg with scaname := some a }, o, true)
        | none => .error (.optargExpected c, cfg, o)
      | _ => .ok ({ cfg with scaname := some cs }, o, false)
    else .error (.optionInvalid (c :: cs), cfg, o)

/-- Embeds the outer flag loop (lines 342–431): consume leading `-...`
elements, stopping at `-` or `--` (consumed) or at the first element not
beginning with `-`. Returns the configuration, the `opterr` value and the
remaining operands. -/
def parseFlags (cfg : Cfg) (o : Nat) :
    List (List Char) → Except (BErr × Cfg × Nat) (Cfg × Nat × List (List Char))
  | [] => .ok (cfg, o, [])
  | a :: as =>
    match a with
    | [] => .ok (cfg, o, [] :: as)
    | c :: rest1 =>
      if c == '-' then
        if rest1.isEmpty || rest1 == ['-'] then .ok (cfg, o, as)
        else
          match parseChars cfg o as.head? rest1 with
          | .error e => .error e
          | .ok (cfg1, o1, used) =>
            if used then
              match as with
              | [] => parseFlags cfg1 o1 []
              | _ :: as2 => parseFlags cfg1 o1 as2
            else parseFlags cfg1 o1 as
      else .ok (cfg, o, a :: as)

/-- Embeds lines 448–456: prepend `:` to the short-option spec when running
quietly (`opterr == 0`), otherwise clear `opterr` when the spec already
begins with `:`. Returns the spec together with the updated `opterr`. -/
def effShort (o : Nat) (spec : List Char) : List Char × Nat :=
  if o = 0 ∧ spec.head? ≠ some ':' then (':' :: spec, o)
  else (spec, if spec.head? = some ':' then 0 else o)

/-- The digits appended in concatenation mode. -/
def digitsStr : List Char := ['0', '1', '2', '3', '4', '5', '6', '7', '8', '9']

/-- Embeds lines 460–462: in concatenation mode, append the digits to the
short-option spec when it contains none. -/
def fullShortFor (cfg : Cfg) (s0 : List Char) : List Char :=
  if cfg.concat && !(s0.any isdigitC) then s0 ++ digitsStr else s0

/-- Modelled from the spec: zsh `quotestring(s, QT_SINGLE)` — shell-safe
single-quote escaping of the body placed between single quotes; an embedded
single quote becomes quote, backslash-quote, quote. -/
def quoteSingle (s : List Char) : List Char :=
  s.foldr (fun c acc => if c == sq then sq :: bsl :: sq :: sq :: acc else c :: acc) []

/-- A quoted token appended to the argument string: space, quote, escaped
body, quote. -/
def quotedTok (s : List Char) : List Char :=
  ' ' :: sq :: (quoteSingle s ++ [sq])

/-- The rendered optarg suffix (lines 555–557). -/
def optargStr : Option (List Char) → List Char
  | none => []
  | some v => quotedTok v

/-- State of the classification loop of `bin_getoptx`. -/
structure LoopSt where
  g : GState
  this_optind : Nat
  was_num : Bool
  last_num : Int
  argstr : List Char
  ret : Nat
  diags : Nat
deriving Repr

/-- Outcome of the classification loop. -/
structure LoopOut where
  argstr : List Char
  ret : Nat
  diags : Nat
  ops : List (List Char)
  aborted : Bool
deriving Repr

/-- Classification result: either the loop finished (`done`), or the
forward resynchronisation scan ran past the end of the argument vector
(`oob`), which in the C code is an out-of-bounds read. -/
inductive COut where
  | oob (argstr : List Char) (ret diags : Nat)
  | done (o : LoopOut)
deriving Repr

/-- Embeds the forward resynchronisation scan (lines 496–500): advance from
`i` to the first element whose first character is `-`; `none` models the
scan running past the end of the vector. -/
def scanDash (argv : List (List Char)) (i : Nat) : Option Nat :=
  let k := (argv.drop i).findIdx (fun e => e.head? == some '-')
  if i + k < argv.length then some (i + k) else none

/-- Embeds the classification loop of `bin_getoptx` (lines 483–558): call
the parser, resynchronise the tracked position in concatenation mode, then
render the step — error markers (unless elided, aborting if requested),
long options (normalised if requested), short options with the numeric
concatenation heuristic, and any captured argument. -/
def classify (P : GParams) (cfg : Cfg) : Nat → LoopSt → COut
  | 0, st => .done ⟨st.argstr, st.ret, st.diags, [], true⟩
  | fuel + 1, st =>
    let o := gstep P st.g
    let diags := st.diags + (if o.diag then 1 else 0)
    let scanRes : Option Nat :=
      if cfg.concat && (o.st.i != st.this_optind) then scanDash P.argv st.this_optind
      else some st.this_optind
    match o.ret with
    | .eof ops => .done ⟨st.argstr, st.ret, st.diags, ops, false⟩
    | .colon =>
      match scanRes with
      | none => .oob st.argstr st.ret diags
      | some _ =>
        let a := st.argstr ++ (if cfg.err_elide then [] else quotedTok [':'])
        if cfg.err_abort then .done ⟨a, 1, diags, [], true⟩
        else classify P cfg fuel ⟨o.st, o.st.i, st.was_num, st.last_num, a, 1, diags⟩
    | .quest =>
      match scanRes with
      | none => .oob st.argstr st.ret diags
      | some _ =>
        let a := st.argstr ++ (if cfg.err_elide then [] else quotedTok ['?'])
        if cfg.err_abort then .done ⟨a, 1, diags, [], true⟩
        else classify P cfg fuel ⟨o.st, o.st.i, st.was_num, st.last_num, a, 1, diags⟩
    | .long k =>
      match scanRes with
      | none => .oob st.argstr st.ret diags
      | some _ =>
        let nm := (P.longopts.getD k default).name
        let nm2 := if cfg.norm_punct then strip_punct nm else nm
        let a := st.argstr ++ (' ' :: '-' :: '-' :: nm2) ++ optargStr o.optarg
        classify P cfg fuel ⟨o.st, o.st.i, st.was_num, st.last_num, a, st.ret, diags⟩
    | .short c =>
      match scanRes with
      | none => .oob st.argstr st.ret diags
      | some ti =>
        if cfg.concat && isdigitC c then
          let a :=
            if st.was_num && (st.last_num == (ti : Int)) then st.argstr ++ [c]
            else st.argstr ++ [' ', '-', c]
          classify P cfg fuel ⟨o.st, o.st.i, true, (ti : Int), a ++ optargStr o.optarg, st.ret, diags⟩
        else
          let a := st.argstr ++ [' ', '-', c] ++ optargStr o.optarg
          classify P cfg fuel ⟨o.st, o.st.i, false, st.last_num, a, st.ret, diags⟩

/-- Result of one invocation of the builtin. -/
structure Res where
  ret : Nat
  out : Option (List Char)
  scalar : Option (List Char × List Char)
  arr : Option (List Char × List Char)
  libDiags : Nat
  warns : Nat
  oob : Bool
deriving DecidableEq, Repr

/-- Embeds the `done` block (lines 584–645): null the first byte of the
argument string when aborting with an error (which empties the string as
seen from `argstr` but not from `argstr + 1`), perform the requested
emission — array binding, scalar binding, or stdout — and restore the saved
program name unconditionally. -/
def finishUp (cfg : Cfg) (g : Globals) (oNow : Nat) (argstr : List Char)
    (ret0 warns diags : Nat) (oob : Bool) : Res × Globals :=
  let discard := !argstr.isEmpty && cfg.err_abort && (ret0 != 0)
  let visible := if discard then [] else argstr
  let tl := argstr.drop 1
  let g1 : Globals := { opterr := oNow, progname := g.progname }
  match cfg.arrname with
  | some an =>
    if isidentB an then
      (⟨ret0, none, none, some (an, tl), diags, warns, oob⟩, g1)
    else (⟨2, none, none, none, diags, warns + 1, oob⟩, g1)
  | none =>
    match cfg.scaname with
    | some sn =>
      if isidentB sn then (⟨ret0, none, some (sn, tl), none, diags, warns, oob⟩, g1)
      else (⟨2, none, none, none, diags, warns + 1, oob⟩, g1)
    | none =>
      (⟨ret0, if visible.isEmpty then none else some tl, none, none, diags, warns, oob⟩, g1)

/-- Embeds lines 464–566 of `bin_getoptx`: build the effective short-option
spec, choose the diagnostic name, assemble the argument vector, run the
classification loop, and append the `--` separator and quoted operands when
the loop was not aborted. -/
def runScan (env : Env) (cfg : Cfg) (sh : List Char × Nat)
    (inputs : List (List Char)) (tbl : List LongOpt) (g : Globals) : Res × Globals :=
  let shortopts := fullShortFor cfg sh.1
  let name := cfg.nameOpt.getD (env.scriptname.getD (env.argzero.getD env.nam))
  let argp := if inputs.isEmpty then env.pparams else inputs
  let argv := name :: argp
  let P : GParams :=
    { argv := argv, eff := effOf shortopts, ordering := orderingOf shortopts,
      colonMode := (effOf shortopts).head? == some ':',
      printErrors := (sh.2 != 0) && ((effOf shortopts).head? != some ':'),
      longopts := tbl }
  let fuel := argv.foldl (fun a e => a + e.length + 2) 4
  match classify P cfg fuel ⟨⟨1, [], []⟩, 1, false, (-1 : Int), [], 0, 0⟩ with
  | .oob a r d => finishUp cfg g sh.2 a r 0 d true
  | .done lo =>
    let argstr :=
      if lo.aborted then lo.argstr
      else lo.argstr ++ [' ', '-', '-'] ++ (lo.ops.foldl (fun a op => a ++ quotedTok op) [])
    finishUp cfg g sh.2 argstr lo.ret 0 lo.diags false

/-- Embeds lines 433–566: register the collected long-option specs (aborting
on an invalid spec), require the short-option operand, then parse. -/
def runCore (env : Env) (cfg : Cfg) (o : Nat) (rest : List (List Char))
    (g : Globals) : Res × Globals :=
  match addAllSpecs [] cfg.longspecs cfg.norm_punct with
  | .error _ => finishUp cfg g o [] 2 1 0 false
  | .ok tbl =>
    match rest with
    | [] => finishUp cfg g o [] 2 1 0 false
    | spec :: inputs => runScan env cfg (effShort o spec) inputs tbl g

/-- Embeds `bin_getoptx`: parse the builtin's own flags, then run; every
exit path funnels through the `done` block (`finishUp`). -/
def bin_getoptx (env : Env) (args : List (List Char)) (g : Globals) : Res × Globals :=
  match parseFlags {} g.opterr args with
  | .error (_, cfg, o) => finishUp cfg g o [] 2 1 0 false
  | .ok (cfg, o, rest) => runCore env cfg o rest g

/-- A spec token whose stripped name begins with `-` or still ends in `:`
(the only ways a non-empty stripped name can be invalid). -/
def invalidTok (tok : List Char) : Bool :=
  (processTok tok).1.head? == some '-' || (processTok tok).1.getLast? == some ':'

/-- The `opterr` component of a flag-character parse outcome. -/
def opterrOfC : Except (BErr × Cfg × Nat) (Cfg × Nat × Bool) → Nat
  | .error (_, _, o) => o
  | .ok (_, o, _) => o

/-- The `opterr` component of a flag-loop parse outcome. -/
def opterrOfF : Except (BErr × Cfg × Nat) (Cfg × Nat × List (List Char)) → Nat
  | .error (_, _, o) => o
  | .ok (_, o, _) => o

/-- Invariant of the parser state: while a short-option cluster is open,
the scan index stays on the option-like element the cluster came from. -/
def GInv (P : GParams) (s : GState) : Prop :=
  s.cluster ≠ [] → s.i < P.argv.length ∧ optionLike (P.argv.getD s.i []) = true

/-! ## Concrete fixtures -/

/-- A concrete host environment for concrete runs. -/
def envW : Env :=
  { pparams := [], nam := "getoptx".data, scriptname := none, argzero := none }

/-- Fresh process globals: `opterr` still 1, some ambient program name. -/
def gW : Globals := { opterr := 1, progname := some "zsh".data }

end Getoptx

namespace Getoptx

/-! ## Claims -/

/-- C6: for the short-option spec `ab:` and input tokens `-a -b val extra`,
the builtin renders exactly the line made of `-a`, `-b`, the single-quoted
captured value `val`, the literal `--` separator, and the single-quoted
operand `extra`, and returns exit code 0. -/
theorem getoptx_c6 :
    (bin_getoptx envW ["ab:".data, "-a".data, "-b".data, "val".data, "extra".data] gW).1.out =
      some ("-a -b ".data ++ [sq] ++ "val".data ++ [sq] ++ " -- ".data ++ [sq] ++ "extra".data ++ [sq]) ∧
    (bin_getoptx envW ["ab:".data, "-a".data, "-b".data, "val".data, "extra".data] gW).1.ret = 0 := by
  decide

/-- C1 counterexample: with numeric concatenation (`-c`) and the three input
tokens `-1 -2 -3`, the rendered output is `-1 -2 -3 --` — three separate
digit tokens — and not the single merged token `-123`; the claim's asserted
output for this input is therefore false. -/
theorem getoptx_c1_counterexample :
    (bin_getoptx envW ["-c".data, "".data, "-1".data, "-2".data, "-3".data] gW).1.out =
      some "-1 -2 -3 --".data ∧
    some "-1 -2 -3 --".data ≠ some "-123 --".data := by
  decide

/-- C1 amended: the numeric merge applies to consecutive digit options drawn
from the same argument-vector element: the single input token `-123` renders
as the single token `-123`, while the separate tokens `-1 -2 -3` render as
three separate tokens, and `-1 foo -2` renders as two separate tokens with
`foo` as an operand (the intervening operand keeps the positions distinct). -/
theorem getoptx_c1_amended :
    (bin_getoptx envW ["-c".data, "".data, "-123".data] gW).1.out = some "-123 --".data ∧
    (bin_getoptx envW ["-c".data, "".data, "-1".data, "-2".data, "-3".data] gW).1.ret = 0 ∧
    (bin_getoptx envW ["-c".data, "".data, "-1".data, "foo".data, "-2".data] gW).1.out =
      some ("-1 -2 -- ".data ++ [sq] ++ "foo".data ++ [sq]) := by
  decide

/-- C2: with `-E -s var`, spec `a` and inputs `-a -z`, classification aborts
at the unknown option `-z`; the stdout destination is empty, but the scalar
binding receives the previously rendered (supposedly discarded) text
`-a '?'` — the discard only nulls the first byte while the assignment reads
from `argstr + 1` — contradicting the claim that every destination emits an
empty result. -/
theorem getoptx_c2_bug :
    (bin_getoptx envW ["-E".data, "-s".data, "var".data, "a".data, "-a".data, "-z".data] gW).1.scalar =
      some ("var".data, "-a ".data ++ [sq, '?', sq]) ∧
    ("-a ".data ++ [sq, '?', sq]) ≠ [] ∧
    (bin_getoptx envW ["-E".data, "-s".data, "var".data, "a".data, "-a".data, "-z".data] gW).1.out = none ∧
    (bin_getoptx envW ["-E".data, "-s".data, "var".data, "a".data, "-a".data, "-z".data] gW).1.ret = 1 := by
  decide

/-- C3 counterexample: for the all-punctuation spec token `...` with
punctuation normalisation, the primary name registers fine, but the
punctuation-stripped alias is empty, its registration fails, the failure is
counted (`add_longopts` returns 1), and the whole invocation aborts with
exit code 2 — so the alias failure is fatal, contrary to the claim. -/
theorem getoptx_c3_counterexample :
    add_longopts [] "...".data false = (0, [{ name := "...".data, has_arg := 0, val := 1 }]) ∧
    add_longopts [] "...".data true = (1, [{ name := "...".data, has_arg := 0, val := 1 }]) ∧
    (bin_getoptx envW ["-p".data, "-l".data, "...".data, "".data] gW).1.ret = 2 := by
  decide

/-- A name passing `add_longopt`'s validity test registers successfully. -/
theorem add_longopt_some_of_valid (t : List LongOpt) (nm : List Char) (ha : Nat)
    (h1 : nm ≠ []) (h2 : nm.head? ≠ some '-') (h3 : nm.getLast? ≠ some ':') :
    ∃ t1, add_longopt t nm ha = some t1 := by
  have hc : (nm.isEmpty || nm.head? == some '-' || nm.getLast? == some ':') = false := by
    simp [List.isEmpty_iff, h1, h2, h3]
  unfold add_longopt
  rw [hc]
  simp only [Bool.false_eq_true, if_false]
  cases t.findIdx? (fun e => e.name == nm) <;> exact ⟨_, rfl⟩

/-- Every character surviving `strip_punct` is non-punctuation. -/
theorem strip_punct_no_punct (s : List Char) :
    ∀ c ∈ strip_punct s, ispunctC c = false := by
  intro c hc
  have h := List.of_mem_filter hc
  simpa using h

/-- A non-empty punctuation-stripped name is itself a valid option name. -/
theorem strip_punct_valid (s : List Char) :
    (strip_punct s).head? ≠ some '-' ∧ (strip_punct s).getLast? ≠ some ':' := by
  constructor
  · intro hh
    have hm : '-' ∈ strip_punct s := by
      have hcons := List.eq_cons_of_mem_head? (show '-' ∈ (strip_punct s).head? from hh)
      rw [hcons]
      exact List.mem_cons_self _ _
    have := strip_punct_no_punct s _ hm
    simp [ispunctC] at this
  · intro hh
    have hm : ':' ∈ strip_punct s := by
      obtain ⟨hne, heq⟩ := List.mem_getLast?_eq_getLast (show ':' ∈ (strip_punct s).getLast? from hh)
      rw [heq]
      exact List.getLast_mem hne
    have := strip_punct_no_punct s _ hm
    simp [ispunctC] at this

/-- C3 amended: with punctuation normalisation, a second punctuation-stripped
alias is attempted exactly when stripping shortens the name (i.e. the name
contains punctuation); a non-empty alias always registers alongside the
primary with no failure, while an empty alias (an all-punctuation name)
fails to register and the failure is counted — which the caller treats as
fatal to the whole invocation — although the primary name itself remains
registered. -/
theorem getoptx_c3_amended (t : List LongOpt) (nm : List Char) (ha : Nat)
    (h1 : nm ≠ []) (h2 : nm.head? ≠ some '-') (h3 : nm.getLast? ≠ some ':')
    (h4 : (strip_punct nm).length < nm.length) :
    (strip_punct nm = [] →
      ∃ t1, add_longopt t nm ha = some t1 ∧ regNamed t nm ha true = (1, t1)) ∧
    (strip_punct nm ≠ [] →
      ∃ t1 t2, add_longopt t nm ha = some t1 ∧
        add_longopt t1 (strip_punct nm) ha = some t2 ∧
        regNamed t nm ha true = (0, t2)) := by
  obtain ⟨t1, ht1⟩ := add_longopt_some_of_valid t nm ha h1 h2 h3
  have hne : nm.isEmpty = false := by simp [List.isEmpty_iff, h1]
  constructor
  · intro hal
    refine ⟨t1, ht1, ?_⟩
    have hnone : add_longopt t1 (strip_punct nm) ha = none := by
      rw [hal]
      rfl
    unfold regNamed
    rw [hne]
    simp only [Bool.false_eq_true, if_false, ht1, if_true]
    rw [if_pos h4, hnone]
  · intro hal
    obtain ⟨hh, hl⟩ := strip_punct_valid nm
    obtain ⟨t2, ht2⟩ := add_longopt_some_of_valid t1 (strip_punct nm) ha hal hh hl
    refine ⟨t1, t2, ht1, ht2, ?_⟩
    unfold regNamed
    rw [hne]
    simp only [Bool.false_eq_true, if_false, ht1, if_true]
    rw [if_pos h4, ht2]

/-- Reading an index off `set` at a different position is unchanged. -/
theorem set_getD_ne {α : Type} : ∀ (t : List α) (k j : Nat) (x : α) (d : α),
    j ≠ k → (t.set k x).getD j d = t.getD j d := by
  intro t
  induction t with
  | nil => intro k j x d _; rfl
  | cons a t ih =>
    intro k j x d hjk
    cases k with
    | zero =>
      cases j with
      | zero => exact absurd rfl hjk
      | succ j => rfl
    | succ k =>
      cases j with
      | zero => rfl
      | succ j => exact ih k j x d (fun hh => hjk (by rw [hh]))

/-- Mapping over a `set` whose new value agrees with the old under `f` is
unchanged. -/
theorem map_set_eq {α β : Type} : ∀ (t : List α) (k : Nat) (x : α) (f : α → β) (d : α),
    k < t.length → f x = f (t.getD k d) → (t.set k x).map f = t.map f := by
  intro t
  induction t with
  | nil => intro k x f d h _; cases h
  | cons a t ih =>
    intro k x f d hk hf
    cases k with
    | zero =>
      simp only [List.set_cons_zero, List.map_cons]
      simp only [List.getD_cons_zero] at hf
      rw [hf]
    | succ k =>
      simp only [List.set_cons_succ, List.map_cons]
      rw [ih k x f d (by simpa using hk) (by simpa using hf)]

/-- What a successful `findIdx?` (with start index) returns: an index past
the start whose element satisfies the predicate. -/
theorem findIdx?_facts {α : Type} [Inhabited α] (p : α → Bool) :
    ∀ (t : List α) (i k : Nat), t.findIdx? p i = some k →
      i ≤ k ∧ k - i < t.length ∧ p (t.getD (k - i) default) = true := by
  intro t
  induction t with
  | nil => intro i k h; cases h
  | cons a t ih =>
    intro i k h
    rw [List.findIdx?_cons] at h
    by_cases hp : p a = true
    · rw [if_pos hp] at h
      cases h
      simp [hp]
    · rw [if_neg hp] at h
      obtain ⟨h1, h2, h3⟩ := ih (i + 1) k h
      refine ⟨by omega, by simp; omega, ?_⟩
      have : k - i = (k - (i + 1)) + 1 := by omega
      rw [this]
      simpa using h3

/-- `findIdx?` finds something when a member satisfies the predicate. -/
theorem findIdx?_isSome_of_mem {α : Type} (p : α → Bool) :
    ∀ (t : List α) (i : Nat), (∃ e ∈ t, p e = true) → (t.findIdx? p i).isSome = true := by
  intro t
  induction t with
  | nil => intro i h; simp at h
  | cons a t ih =>
    intro i h
    rw [List.findIdx?_cons]
    by_cases hp : p a = true
    · rw [if_pos hp]; rfl
    · rw [if_neg hp]
      obtain ⟨e, he, hpe⟩ := h
      rcases List.mem_cons.mp he with rfl | he2
      · exact absurd hpe hp
      · exact ih (i + 1) ⟨e, he2, hpe⟩

/-- C5: re-registering a long-option name that already exists in the table
updates only that entry's argument requirement in place: the update is a
`set` at the matching index, the table length is unchanged, the sequence of
names and of `val` tags (hence the order) is unchanged, and every other
position is untouched. -/
theorem getoptx_c5 (t : List LongOpt) (nm : List Char) (ha2 : Nat)
    (h1 : nm ≠ []) (h2 : nm.head? ≠ some '-') (h3 : nm.getLast? ≠ some ':')
    (h4 : ∃ e ∈ t, e.name = nm) :
    ∃ k, k < t.length ∧ (t.getD k default).name = nm ∧
      add_longopt t nm ha2 = some (t.set k { t.getD k default with has_arg := ha2 }) ∧
      (t.set k { t.getD k default with has_arg := ha2 }).length = t.length ∧
      (t.set k { t.getD k default with has_arg := ha2 }).map LongOpt.name = t.map LongOpt.name ∧
      (t.set k { t.getD k default with has_arg := ha2 }).map LongOpt.val = t.map LongOpt.val ∧
      ∀ j, j ≠ k → (t.set k { t.getD k default with has_arg := ha2 }).getD j default = t.getD j default := by
  have hc : (nm.isEmpty || nm.head? == some '-' || nm.getLast? == some ':') = false := by
    simp [List.isEmpty_iff, h1, h2, h3]
  have hsome : (t.findIdx? (fun e => e.name == nm) 0).isSome = true := by
    apply findIdx?_isSome_of_mem
    obtain ⟨e, he, hn⟩ := h4
    exact ⟨e, he, by simp [hn]⟩
  obtain ⟨k, hk⟩ := Option.isSome_iff_exists.mp hsome
  obtain ⟨-, hklen, hkp⟩ := findIdx?_facts _ t 0 k hk
  simp only [Nat.sub_zero] at hklen hkp
  have hname : (t.getD k default).name = nm := by simpa using hkp
  refine ⟨k, hklen, hname, ?_, by simp, ?_, ?_, ?_⟩
  · unfold add_longopt
    rw [hc]
    simp only [Bool.false_eq_true, if_false]
    rw [show t.findIdx? (fun e => e.name == nm) = t.findIdx? (fun e => e.name == nm) 0 from rfl, hk]
  · exact map_set_eq t k _ LongOpt.name default hklen (by simp [hname])
  · exact map_set_eq t k _ LongOpt.val default hklen (by simp)
  · intro j hj
    exact set_getD_ne t k j _ default hj

/-- Witness for C5: updating `foo` (already present with requirement 1) to
requirement 0 in a two-entry table. -/
theorem getoptx_c5_witness :
    ("foo".data ≠ [] ∧ "foo".data.head? ≠ some '-' ∧ "foo".data.getLast? ≠ some ':' ∧
      (∃ e ∈ [LongOpt.mk "foo".data 1 1, LongOpt.mk "bar".data 0 2], e.name = "foo".data)) ∧
    (∃ k, k < [LongOpt.mk "foo".data 1 1, LongOpt.mk "bar".data 0 2].length ∧
      ([LongOpt.mk "foo".data 1 1, LongOpt.mk "bar".data 0 2].getD k default).name = "foo".data ∧
      add_longopt [LongOpt.mk "foo".data 1 1, LongOpt.mk "bar".data 0 2] "foo".data 0 =
        some ([LongOpt.mk "foo".data 1 1, LongOpt.mk "bar".data 0 2].set k
          { [LongOpt.mk "foo".data 1 1, LongOpt.mk "bar".data 0 2].getD k default with has_arg := 0 }) ∧
      ([LongOpt.mk "foo".data 1 1, LongOpt.mk "bar".data 0 2].set k
          { [LongOpt.mk "foo".data 1 1, LongOpt.mk "bar".data 0 2].getD k default with has_arg := 0 }).length =
        [LongOpt.mk "foo".data 1 1, LongOpt.mk "bar".data 0 2].length ∧
      ([LongOpt.mk "foo".data 1 1, LongOpt.mk "bar".data 0 2].set k
          { [LongOpt.mk "foo".data 1 1, LongOpt.mk "bar".data 0 2].getD k default with has_arg := 0 }).map LongOpt.name =
        [LongOpt.mk "foo".data 1 1, LongOpt.mk "bar".data 0 2].map LongOpt.name ∧
      ([LongOpt.mk "foo".data 1 1, LongOpt.mk "bar".data 0 2].set k
          { [LongOpt.mk "foo".data 1 1, LongOpt.mk "bar".data 0 2].getD k default with has_arg := 0 }).map LongOpt.val =
        [LongOpt.mk "foo".data 1 1, LongOpt.mk "bar".data 0 2].map LongOpt.val ∧
      ∀ j, j ≠ k →
        ([LongOpt.mk "foo".data 1 1, LongOpt.mk "bar".data 0 2].set k
          { [LongOpt.mk "foo".data 1 1, LongOpt.mk "bar".data 0 2].getD k default with has_arg := 0 }).getD j default =
        [LongOpt.mk "foo".data 1 1, LongOpt.mk "bar".data 0 2].getD j default) :=
  ⟨⟨by decide, by decide, by decide, ⟨LongOpt.mk "foo".data 1 1, by decide⟩⟩,
    getoptx_c5 [LongOpt.mk "foo".data 1 1, LongOpt.mk "bar".data 0 2] "foo".data 0
      (by decide) (by decide) (by decide) ⟨LongOpt.mk "foo".data 1 1, by decide⟩⟩

/-- Stripping a non-empty token never yields the empty name: the `--` prefix
is only dropped from tokens of length at least 3, and a colon suffix only
from tokens long enough to keep one character. -/
theorem processTok_ne_nil (tok : List Char) (h : tok ≠ []) : (processTok tok).1 ≠ [] := by
  have hlen : 0 < tok.length := List.length_pos.mpr h
  have key : ∀ (t1 : List Char), 0 < t1.length →
      ((if decide (3 ≤ t1.length) && t1.getLast? == some ':' && t1.dropLast.getLast? == some ':'
        then (t1.dropLast.dropLast, 2)
        else if decide (2 ≤ t1.length) && t1.getLast? == some ':'
        then (t1.dropLast, 1)
        else (t1, 0)) : List Char × Nat).1 ≠ [] := by
    intro t1 ht1
    split_ifs with hA hB
    · simp only [Bool.and_eq_true, decide_eq_true_eq] at hA
      rw [← List.length_pos]
      simp only [List.length_dropLast]
      omega
    · simp only [Bool.and_eq_true, decide_eq_true_eq] at hB
      rw [← List.length_pos]
      simp only [List.length_dropLast]
      omega
    · rw [← List.length_pos]
      exact ht1
  simp only [processTok]
  apply key
  split_ifs with hc
  · simp only [Bool.and_eq_true, decide_eq_true_eq] at hc
    simp only [List.length_drop]
    omega
  · exact hlen

/-- Failure count of registering one non-empty stripped name without
normalisation: exactly the names `add_longopt` rejects. -/
theorem regNamed_fails (t : List LongOpt) (nm : List Char) (ha : Nat) (h : nm ≠ []) :
    (regNamed t nm ha false).1 =
      if (nm.head? == some '-' || nm.getLast? == some ':') = true then 1 else 0 := by
  have hne : nm.isEmpty = false := by simp [List.isEmpty_iff, h]
  unfold regNamed
  rw [hne]
  simp only [Bool.false_eq_true, if_false]
  by_cases hbad : (nm.head? == some '-' || nm.getLast? == some ':') = true
  · have hnone : add_longopt t nm ha = none := by
      unfold add_longopt
      have : (nm.isEmpty || nm.head? == some '-' || nm.getLast? == some ':') = true := by
        rw [hne]
        simpa using hbad
      rw [this]
      rfl
    rw [hnone, if_pos hbad]
  · have h2 : nm.head? ≠ some '-' := by
      intro hh
      exact hbad (by simp [hh])
    have h3 : nm.getLast? ≠ some ':' := by
      intro hh
      exact hbad (by simp [hh])
    obtain ⟨t1, ht1⟩ := add_longopt_some_of_valid t nm ha h h2 h3
    rw [ht1, if_neg hbad]

/-- The failure count accumulated by the registration fold equals the count
of invalid tokens, whatever table states are threaded through. -/
theorem foldReg_count : ∀ (toks : List (List Char)) (n : Nat) (t : List LongOpt),
    (∀ tok ∈ toks, tok ≠ []) →
    ((toks.foldl (fun acc tok =>
        let r := regToken acc.2 tok false
        (acc.1 + r.1, r.2)) (n, t)).1 = n + (toks.filter invalidTok).length) := by
  intro toks
  induction toks with
  | nil => intro n t _; rfl
  | cons tok toks ih =>
    intro n t hne
    have htok : tok ≠ [] := hne tok (List.mem_cons_self _ _)
    have hnm : (processTok tok).1 ≠ [] := processTok_ne_nil tok htok
    have hfail := regNamed_fails ((regToken (n, t).2 tok false).2) (processTok tok).1 (processTok tok).2 hnm
    simp only [List.foldl_cons]
    rw [ih _ _ (fun x hx => hne x (List.mem_cons_of_mem _ hx))]
    have hcount := regNamed_fails t (processTok tok).1 (processTok tok).2 hnm
    by_cases hbad : invalidTok tok = true
    · have : (regToken t tok false).1 = 1 := by
        unfold regToken
        rw [hcount, if_pos (by simpa [invalidTok] using hbad)]
      simp only [this, List.filter_cons, hbad, if_true, List.length_cons]
      omega
    · have : (regToken t tok false).1 = 0 := by
        unfold regToken
        rw [hcount, if_neg (by simpa [invalidTok] using hbad)]
      simp only [this, List.filter_cons]
      rw [if_neg hbad]
      omega

/-- Every token produced by the tokenizer is non-empty. -/
theorem tokenizeSpec_ne_nil (s : List Char) : ∀ tok ∈ tokenizeSpec s, tok ≠ [] := by
  intro tok htok
  have := List.of_mem_filter htok
  simpa [List.isEmpty_iff] using this

/-- The `done` block always reports exit code 2 when entered with 2. -/
theorem finishUp_ret2 (cfg : Cfg) (g : Globals) (o : Nat) (a : List Char)
    (w d : Nat) (b : Bool) : ((finishUp cfg g o a 2 w d b).1).ret = 2 := by
  unfold finishUp
  repeat' split
  all_goals rfl

/-- C4: `add_longopt` rejects exactly the names that are empty, begin with
`-`, or still end in `:`; without normalisation, one spec string's failure
count is exactly the number of its tokens whose stripped name is invalid;
and whenever the collected long-option specs fail, the invocation aborts
with exit code 2. -/
theorem getoptx_c4 :
    (∀ (t : List LongOpt) (nm : List Char) (ha : Nat),
      add_longopt t nm ha = none ↔ (nm = [] ∨ nm.head? = some '-' ∨ nm.getLast? = some ':')) ∧
    (∀ (t : List LongOpt) (spec : List Char),
      (add_longopts t spec false).1 = ((tokenizeSpec spec).filter invalidTok).length) ∧
    (∀ (env : Env) (cfg : Cfg) (o : Nat) (rest : List (List Char)) (g : Globals) (sp : List Char),
      addAllSpecs [] cfg.longspecs cfg.norm_punct = .error sp →
      ((runCore env cfg o rest g).1).ret = 2) := by
  refine ⟨?_, ?_, ?_⟩
  · intro t nm ha
    constructor
    · intro h
      by_contra hcon
      push_neg at hcon
      obtain ⟨h1, h2, h3⟩ := hcon
      obtain ⟨t1, ht1⟩ := add_longopt_some_of_valid t nm ha h1 h2 h3
      rw [ht1] at h
      cases h
    · intro h
      unfold add_longopt
      have hc : (nm.isEmpty || nm.head? == some '-' || nm.getLast? == some ':') = true := by
        rcases h with h | h | h <;> simp [List.isEmpty_iff, h]
      rw [hc]
      rfl
  · intro t spec
    have := foldReg_count (tokenizeSpec spec) 0 t (tokenizeSpec_ne_nil spec)
    unfold add_longopts
    omega
  · intro env cfg o rest g sp h
    unfold runCore
    rw [h]
    exact finishUp_ret2 cfg g o [] 1 0 false

/-- Witness for C4's abort conjunct at the concrete invalid spec `:`. -/
theorem getoptx_c4_witness :
    addAllSpecs [] ({ longspecs := [":".data] } : Cfg).longspecs
      ({ longspecs := [":".data] } : Cfg).norm_punct = .error ":".data ∧
    ((runCore envW { longspecs := [":".data] } 1 ["a".data] gW).1).ret = 2 :=
  ⟨by rfl,
    getoptx_c4.2.2 envW { longspecs := [":".data] } 1 ["a".data] gW ":".data (by rfl)⟩

/-- The `done` block restores the saved program name on every branch. -/
theorem finishUp_progname (cfg : Cfg) (g : Globals) (o : Nat) (a : List Char)
    (r w d : Nat) (b : Bool) : ((finishUp cfg g o a r w d b).2).progname = g.progname := by
  unfold finishUp
  repeat' split
  all_goals rfl

/-- The `done` block leaves `opterr` at the value it had on entry. -/
theorem finishUp_opterr (cfg : Cfg) (g : Globals) (o : Nat) (a : List Char)
    (r w d : Nat) (b : Bool) : ((finishUp cfg g o a r w d b).2).opterr = o := by
  unfold finishUp
  repeat' split
  all_goals rfl

/-- The `done` block reports the `oob` marker it is given. -/
theorem finishUp_oob (cfg : Cfg) (g : Globals) (o : Nat) (a : List Char)
    (r w d : Nat) (b : Bool) : ((finishUp cfg g o a r w d b).1).oob = b := by
  unfold finishUp
  repeat' split
  all_goals rfl

/-- C7: on every exit path of an invocation — flag-parsing errors, invalid
long-option specs, the missing-operand error, aborted parses and successful
parses alike — the process-global program name observed after the builtin
returns equals the value saved before the invocation began. -/
theorem getoptx_c7 (env : Env) (args : List (List Char)) (g : Globals) :
    ((bin_getoptx env args g).2).progname = g.progname := by
  simp only [bin_getoptx, runCore, runScan]
  repeat' split
  all_goals apply finishUp_progname

/-- Lines 448–456 produce the same spec/`opterr` pair for quiet mode with
spec `s` as for loud mode with spec `:s`. -/
theorem effShort_quiet (spec : List Char) (h : spec.head? ≠ some ':') (w : Nat) :
    effShort 0 spec = effShort w (':' :: spec) := by
  unfold effShort
  rw [if_pos ⟨rfl, h⟩, if_neg (fun hc => hc.2 rfl)]
  simp

/-- C8: for every short-option spec that does not begin with `:`, invoking
the builtin with `-q` and that spec is the same invocation as invoking it
without `-q` with `:` prefixed to the spec: the whole result — rendered
output, chosen destination, exit code, diagnostic counts — and the final
globals coincide. (The `--` separator ends the builtin's own flags in both
invocations so the spec is read as the operand.) -/
theorem getoptx_c8 (env : Env) (g : Globals) (spec : List Char)
    (inputs : List (List Char)) (h : spec.head? ≠ some ':') :
    bin_getoptx env (['-', 'q'] :: ['-', '-'] :: spec :: inputs) g =
    bin_getoptx env (['-', '-'] :: (':' :: spec) :: inputs) g := by
  have e1 : parseFlags {} g.opterr (['-', 'q'] :: ['-', '-'] :: spec :: inputs) =
      .ok ({}, 0, spec :: inputs) := rfl
  have e2 : parseFlags {} g.opterr (['-', '-'] :: (':' :: spec) :: inputs) =
      .ok ({}, g.opterr, (':' :: spec) :: inputs) := rfl
  unfold bin_getoptx
  rw [e1, e2]
  show runScan env {} (effShort 0 spec) inputs [] g =
    runScan env {} (effShort g.opterr (':' :: spec)) inputs [] g
  rw [effShort_quiet spec h g.opterr]

/-- Witness for C8 at the concrete spec `a` with no inputs. -/
theorem getoptx_c8_witness :
    ("a".data.head? ≠ some ':') ∧
    bin_getoptx envW (['-', 'q'] :: ['-', '-'] :: "a".data :: []) gW =
    bin_getoptx envW (['-', '-'] :: (':' :: "a".data) :: []) gW :=
  ⟨by decide, getoptx_c8 envW gW "a".data [] (by decide)⟩

/-- The flag characters only ever write 0 to `opterr`: starting from 0 it
stays 0. -/
theorem parseChars_opterr_zero : ∀ (cs : List Char) (cfg : Cfg) (nxt : Option (List Char)),
    opterrOfC (parseChars cfg 0 nxt cs) = 0 := by
  intro cs
  induction cs with
  | nil => intro cfg nxt; rfl
  | cons c cs ih =>
    intro cfg nxt
    unfold parseChars
    split_ifs
    all_goals
      first
      | apply ih
      | rfl
      | (cases cs with
         | nil => cases nxt <;> rfl
         | cons d ds => rfl)

/-- The flag loop only ever writes 0 to `opterr`: starting from 0 it stays
0, on the error path as well. -/
theorem parseFlags_opterr_zero_aux : ∀ (n : Nat) (args : List (List Char)),
    args.length ≤ n → ∀ (cfg : Cfg), opterrOfF (parseFlags cfg 0 args) = 0 := by
  intro n
  induction n with
  | zero =>
    intro args h cfg
    have : args = [] := List.length_eq_zero.mp (Nat.le_zero.mp h)
    subst this
    rfl
  | succ n ih =>
    intro args h cfg
    match args with
    | [] => rfl
    | a :: as =>
      unfold parseFlags
      match a with
      | [] => rfl
      | c :: rest1 =>
        simp only []
        split_ifs with h1 h2
        · rfl
        · have hlen : as.length ≤ n := by
            simp only [List.length_cons] at h
            omega
          rcases hpc : parseChars cfg 0 as.head? rest1 with e | ⟨cfg1, o1, used⟩
          · have := parseChars_opterr_zero rest1 cfg as.head?
            rw [hpc] at this
            rcases e with ⟨eb, ec, eo⟩
            exact this
          · have ho1 : o1 = 0 := by
              have := parseChars_opterr_zero rest1 cfg as.head?
              rw [hpc] at this
              exact this
            subst ho1
            cases used with
            | true =>
              cases as with
              | nil => exact ih [] (by simp) cfg1
              | cons b as2 =>
                refine ih as2 ?_ cfg1
                simp only [List.length_cons] at h hlen ⊢
                omega
            | false => exact ih as hlen cfg1
        · rfl

/-- The flag loop preserves a cleared `opterr`. -/
theorem parseFlags_opterr_zero (args : List (List Char)) (cfg : Cfg) :
    opterrOfF (parseFlags cfg 0 args) = 0 :=
  parseFlags_opterr_zero_aux args.length args (Nat.le_refl _) cfg

/-- `effShort` never sets `opterr` back to a non-zero value. -/
theorem effShort_zero_snd (spec : List Char) : (effShort 0 spec).2 = 0 := by
  unfold effShort
  split_ifs <;> rfl

/-- C10: the parser's global diagnostic-suppression flag is never restored:
once an invocation leaves `opterr` cleared, every later invocation keeps it
cleared; a later invocation given a spec not starting with `:` then prepends
`:` to its own spec exactly as `-q` would; and with `opterr` already
cleared, invoking without `-q` is the very same invocation as invoking with
`-q`. -/
theorem getoptx_c10 :
    (∀ (env : Env) (args : List (List Char)) (g : Globals), g.opterr = 0 →
      ((bin_getoptx env args g).2).opterr = 0) ∧
    (∀ (spec : List Char), spec.head? ≠ some ':' → (effShort 0 spec).1 = ':' :: spec) ∧
    (∀ (env : Env) (spec : List Char) (inputs : List (List Char)) (g : Globals),
      g.opterr = 0 →
      bin_getoptx env (['-', '-'] :: spec :: inputs) g =
      bin_getoptx env (['-', 'q'] :: ['-', '-'] :: spec :: inputs) g) := by
  refine ⟨?_, ?_, ?_⟩
  · intro env args g hg
    unfold bin_getoptx
    rw [hg]
    have hzero := parseFlags_opterr_zero args {}
    rcases hpf : parseFlags ({} : Cfg) 0 args with ⟨eb, ecfg, eo⟩ | ⟨cfg, o, rest⟩
    · rw [hpf] at hzero
      simp only [opterrOfF] at hzero
      dsimp only
      rw [finishUp_opterr]
      exact hzero
    · rw [hpf] at hzero
      simp only [opterrOfF] at hzero
      subst hzero
      dsimp only
      simp only [runCore, runScan]
      repeat' split
      all_goals rw [finishUp_opterr]
      all_goals first
        | rfl
        | exact effShort_zero_snd _
  · intro spec h
    unfold effShort
    rw [if_pos ⟨rfl, h⟩]
  · intro env spec inputs g hg
    unfold bin_getoptx
    rw [hg]
    rfl

/-- Reading inside a `drop` is reading at the shifted index. -/
theorem getD_drop {α : Type} (d : α) :
    ∀ (l : List α) (i n : Nat), (l.drop i).getD n d = l.getD (i + n) d := by
  intro l
  induction l with
  | nil => intro i n; simp
  | cons a l ih =>
    intro i n
    cases i with
    | zero => simp
    | succ i =>
      simp only [List.drop_succ_cons]
      rw [ih i n]
      have : i + 1 + n = (i + n) + 1 := by omega
      rw [this]
      rfl

/-- `findIdx` is bounded by any index whose element satisfies the
predicate. -/
theorem findIdx_le_of_getD {α : Type} (p : α → Bool) (d : α) :
    ∀ (l : List α) (n : Nat), n < l.length → p (l.getD n d) = true → l.findIdx p ≤ n := by
  intro l
  induction l with
  | nil => intro n h; cases h
  | cons a l ih =>
    intro n hn hp
    by_cases hpa : p a = true
    · simp [List.findIdx_cons, hpa]
    · cases n with
      | zero =>
        simp only [List.getD_cons_zero] at hp
        exact absurd hp hpa
      | succ n =>
        simp only [List.getD_cons_succ] at hp
        have := ih n (by simpa using hn) hp
        have hpa2 : p a = false := Bool.eq_false_iff.mpr hpa
        simp only [List.findIdx_cons, hpa2, cond_false]
        omega

/-- The element `findIdx` stops at satisfies the predicate. -/
theorem findIdx_getD_of_lt {α : Type} (p : α → Bool) (d : α) :
    ∀ (l : List α), l.findIdx p < l.length → p (l.getD (l.findIdx p) d) = true := by
  intro l
  induction l with
  | nil => intro h; cases h
  | cons a l ih =>
    intro h
    by_cases hpa : p a = true
    · simp [List.findIdx_cons, hpa]
    · have hpa2 : p a = false := Bool.eq_false_iff.mpr hpa
      simp only [List.findIdx_cons, hpa2, cond_false] at h ⊢
      simp only [List.getD_cons_succ]
      exact ih (by simpa using h)

/-- An option-like element starts with `-`. -/
theorem optionLike_head (e : List Char) (h : optionLike e = true) : e.head? = some '-' := by
  match e with
  | [] => cases h
  | [c] => cases h
  | c :: d :: t =>
    simp only [optionLike, beq_iff_eq] at h
    simp [h]

/-- The resynchronisation scan succeeds whenever some element at or past the
start index begins with `-`. -/
theorem scanDash_isSome (argv : List (List Char)) (i : Nat)
    (h : ∃ q, i ≤ q ∧ q < argv.length ∧ (argv.getD q []).head? = some '-') :
    (scanDash argv i).isSome = true := by
  obtain ⟨q, h1, h2, h3⟩ := h
  unfold scanDash
  have hqk : (argv.drop i).findIdx (fun e => e.head? == some '-') ≤ q - i := by
    apply findIdx_le_of_getD
    · rw [List.length_drop]
      omega
    · rw [getD_drop]
      have : i + (q - i) = q := by omega
      rw [this, h3]
      simp
  rw [if_pos (by omega)]
  rfl

/-- While `shortStep` leaves the cluster open, the scan index stays at the
element's position. -/
theorem shortStep_st (P : GParams) (j : Nat) (pnd : List (List Char)) (c : Char)
    (rest : List Char) :
    (shortStep P j pnd c rest).st.cluster ≠ [] → (shortStep P j pnd c rest).st.i = j := by
  simp only [shortStep]
  repeat' split
  all_goals intro h
  all_goals simp_all [List.isEmpty_iff]

/-- `longStep` always closes the cluster. -/
theorem longStep_cluster (P : GParams) (j : Nat) (pnd : List (List Char))
    (body : List Char) : (longStep P j pnd body).st.cluster = [] := by
  unfold longStep
  dsimp only
  repeat' split
  all_goals rfl

/-- `startElem` at an in-range option-like position preserves the state
invariant. -/
theorem startElem_inv (P : GParams) (j : Nat) (pnd : List (List Char)) (e : List Char)
    (h1 : j < P.argv.length) (h2 : optionLike (P.argv.getD j []) = true) :
    GInv P (startElem P j pnd e).st := by
  unfold startElem
  repeat' split
  · intro h
    exact absurd rfl h
  · intro h
    rw [longStep_cluster] at h
    exact absurd rfl h
  · intro h
    rw [shortStep_st P j pnd _ _ h]
    exact ⟨h1, h2⟩
  · intro h
    exact absurd rfl h

/-- One parser step preserves the invariant, and any step that is not the
final one proves an option-like element at or past the pre-step index —
exactly what the builtin's resynchronisation scan needs. -/
theorem gstep_facts (P : GParams) (s : GState) (hInv : GInv P s)
    (hord : P.ordering ≠ ScanOrder.inorder) :
    GInv P (gstep P s).st ∧
    ((gstep P s).ret.isEof = false →
      ∃ q, s.i ≤ q ∧ q < P.argv.length ∧ (P.argv.getD q []).head? = some '-') := by
  unfold gstep
  cases hcl : s.cluster with
  | cons c rest =>
    obtain ⟨hlt, hopt⟩ := hInv (by rw [hcl]; simp)
    refine ⟨?_, ?_⟩
    · intro h
      rw [shortStep_st P s.i s.pending c rest h]
      exact ⟨hlt, hopt⟩
    · intro _
      exact ⟨s.i, Nat.le_refl _, hlt, optionLike_head _ hopt⟩
  | nil =>
    cases hord2 : P.ordering with
    | inorder => exact absurd hord2 hord
    | permute =>
      dsimp only
      split
      · rename_i hj
        have hjlt : s.i + (P.argv.drop s.i).findIdx optionLike < P.argv.length := by
          exact of_decide_eq_true hj
        have hk : (P.argv.drop s.i).findIdx optionLike < (P.argv.drop s.i).length := by
          rw [List.length_drop]
          omega
        have hopt : optionLike (P.argv.getD (s.i + (P.argv.drop s.i).findIdx optionLike) []) = true := by
          rw [← getD_drop]
          exact findIdx_getD_of_lt optionLike [] _ hk
        refine ⟨startElem_inv P _ _ _ hjlt hopt, ?_⟩
        intro _
        exact ⟨_, Nat.le_add_right _ _, hjlt, optionLike_head _ hopt⟩
      · refine ⟨?_, ?_⟩
        · intro h
          exact absurd rfl h
        · intro hne
          simp [GRet.isEof] at hne
    | require =>
      dsimp only
      split
      · rename_i hi
        have hilt : s.i < P.argv.length := of_decide_eq_true hi
        split
        · rename_i hopt
          refine ⟨startElem_inv P _ _ _ hilt hopt, ?_⟩
          intro _
          exact ⟨s.i, Nat.le_refl _, hilt, optionLike_head _ hopt⟩
        · refine ⟨?_, ?_⟩
          · intro h
            exact absurd rfl h
          · intro hne
            simp [GRet.isEof] at hne
      · refine ⟨?_, ?_⟩
        · intro h
          exact absurd rfl h
        · intro hne
          simp [GRet.isEof] at hne
/-- The classification loop never takes the out-of-bounds branch of the
resynchronisation scan, for any fuel, as long as the parser state satisfies
the invariant, the tracked position equals the parser's index, and the
ordering is not return-in-order. -/
theorem classify_no_oob : ∀ (fuel : Nat) (P : GParams) (cfg : Cfg) (st : LoopSt),
    P.ordering ≠ ScanOrder.inorder → GInv P st.g → st.this_optind = st.g.i →
    ∀ a r d, classify P cfg fuel st ≠ COut.oob a r d := by
  intro fuel
  induction fuel with
  | zero =>
    intro P cfg st _ _ _ a r d h
    simp [classify] at h
  | succ fuel ih =>
    intro P cfg st hord hinv hthis a r d h
    obtain ⟨hinv2, hex⟩ := gstep_facts P st.g hinv hord
    have hscan : (gstep P st.g).ret.isEof = false →
        (if cfg.concat && ((gstep P st.g).st.i != st.this_optind)
         then scanDash P.argv st.this_optind
         else some st.this_optind) ≠ none := by
      intro hne
      split
      · intro hceq
        have hs := scanDash_isSome P.argv st.this_optind (by rw [hthis]; exact hex hne)
        rw [hceq] at hs
        cases hs
      · intro hceq
        cases hceq
    simp only [classify] at h
    cases hret : (gstep P st.g).ret with
    | eof ops =>
      rw [hret] at h
      simp at h
    | colon =>
      rw [hret] at h
      dsimp only at h
      rcases hsc : (if cfg.concat && ((gstep P st.g).st.i != st.this_optind)
          then scanDash P.argv st.this_optind
          else some st.this_optind) with _ | ti
      · exact hscan (by rw [hret]; rfl) hsc
      · rw [hsc] at h
        dsimp only at h
        split at h
        · cases h
        · exact ih P cfg _ hord hinv2 rfl a r d h
    | quest =>
      rw [hret] at h
      dsimp only at h
      rcases hsc : (if cfg.concat && ((gstep P st.g).st.i != st.this_optind)
          then scanDash P.argv st.this_optind
          else some st.this_optind) with _ | ti
      · exact hscan (by rw [hret]; rfl) hsc
      · rw [hsc] at h
        dsimp only at h
        split at h
        · cases h
        · exact ih P cfg _ hord hinv2 rfl a r d h
    | long k =>
      rw [hret] at h
      dsimp only at h
      rcases hsc : (if cfg.concat && ((gstep P st.g).st.i != st.this_optind)
          then scanDash P.argv st.this_optind
          else some st.this_optind) with _ | ti
      · exact hscan (by rw [hret]; rfl) hsc
      · rw [hsc] at h
        dsimp only at h
        exact ih P cfg _ hord hinv2 rfl a r d h
    | short c =>
      rw [hret] at h
      dsimp only at h
      rcases hsc : (if cfg.concat && ((gstep P st.g).st.i != st.this_optind)
          then scanDash P.argv st.this_optind
          else some st.this_optind) with _ | ti
      · exact hscan (by rw [hret]; rfl) hsc
      · rw [hsc] at h
        dsimp only at h
        split at h
        · exact ih P cfg _ hord hinv2 rfl a r d h
        · exact ih P cfg _ hord hinv2 rfl a r d h

/-- C9 counterexample: the resynchronisation scan is not in bounds for every
invocation: with `-c`, the short-option spec `-a` (whose leading `-` selects
the parser's return-in-order mode, under which operands are returned as
option code 1) and inputs `-1 foo`, the scan starts past the last `-`
element and runs past the end of the argument vector. -/
theorem getoptx_c9_counterexample :
    ((runCore envW { concat := true } 1 ["-a".data, "-1".data, "foo".data] gW).1).oob = true := by
  decide

/-- C9 amended: with any configuration (numeric-concatenation mode
included), for every short-option operand whose effective spec does not
select return-in-order (its first character is not `-`), and for every
input argument list, the invocation never performs an out-of-bounds
resynchronisation scan on the constructed argument vector. -/
theorem getoptx_c9 (env : Env) (cfg : Cfg) (o : Nat) (rest : List (List Char))
    (g : Globals)
    (h : ∀ spec inputs, rest = spec :: inputs →
      orderingOf (fullShortFor cfg (effShort o spec).1) ≠ ScanOrder.inorder) :
    ((runCore env cfg o rest g).1).oob = false := by
  simp only [runCore, runScan]
  repeat' split
  all_goals try apply finishUp_oob
  all_goals rename_i heq
  all_goals exact absurd heq (classify_no_oob _ _ _ _ (h _ _ rfl) (fun hc => absurd rfl hc) rfl _ _ _)

/-- Witness for C9 at a concrete concatenation-mode invocation. -/
theorem getoptx_c9_witness :
    ((runCore envW { concat := true } 1 ["".data, "-1".data, "foo".data] gW).1).oob = false :=
  getoptx_c9 envW { concat := true } 1 ["".data, "-1".data, "foo".data] gW
    (fun spec inputs hh => by
      injection hh with h1 h2
      subst h1
      subst h2
      decide)

/-- Witness for C10 at concrete instances with cleared `opterr`. -/
theorem getoptx_c10_witness :
    (({ opterr := 0, progname := none } : Globals).opterr = 0 ∧
      ((bin_getoptx envW ["a".data] { opterr := 0, progname := none }).2).opterr = 0) ∧
    ("a".data.head? ≠ some ':' ∧ (effShort 0 "a".data).1 = ':' :: "a".data) ∧
    bin_getoptx envW (['-', '-'] :: "a".data :: []) { opterr := 0, progname := none } =
      bin_getoptx envW (['-', 'q'] :: ['-', '-'] :: "a".data :: []) { opterr := 0, progname := none } :=
  ⟨⟨rfl, getoptx_c10.1 envW ["a".data] { opterr := 0, progname := none } rfl⟩,
    ⟨by decide, getoptx_c10.2.1 "a".data (by decide)⟩,
    getoptx_c10.2.2 envW "a".data [] { opterr := 0, progname := none } rfl⟩

/-- Witness for the amended C3 at the concrete spec name `a-b`. -/
theorem getoptx_c3_amended_witness :
    ("a-b".data ≠ [] ∧ "a-b".data.head? ≠ some '-' ∧ "a-b".data.getLast? ≠ some ':' ∧
      (strip_punct "a-b".data).length < "a-b".data.length) ∧
    ((strip_punct "a-b".data = [] →
      ∃ t1, add_longopt [] "a-b".data 1 = some t1 ∧ regNamed [] "a-b".data 1 true = (1, t1)) ∧
    (strip_punct "a-b".data ≠ [] →
      ∃ t1 t2, add_longopt [] "a-b".data 1 = some t1 ∧
        add_longopt t1 (strip_punct "a-b".data) 1 = some t2 ∧
        regNamed [] "a-b".data 1 true = (0, t2))) :=
  ⟨⟨by decide, by decide, by decide, by decide⟩,
    getoptx_c3_amended [] "a-b".data 1 (by decide) (by decide) (by decide) (by decide)⟩

end Getoptx
